import Mathlib

/-!
Shallow embedding of the wavefront path-tracing bookkeeping of
`intern/cycles/kernel/integrator/integrator_path_state.h`, of the curve
"resolution" attribute writer of the curve attribute-provider file, and a
spec-level model of the `DeviceQueue` failure contract.

Machine `uint32_t` values are represented as `Nat` reduced modulo `2 ^ 32`;
the queued-kernel bitmask is a `Nat` manipulated with `|||`, `&&&`, `^^^`
exactly as the C macros do with `|=`, `&= ~`.
-/

/-- `2 ^ 32`, the modulus of the `uint32_t` arithmetic used by the atomic
counter operations. -/
def M32 : Nat := 4294967296

/-- Number of integrator kernels, `INTEGRATOR_KERNEL_NUM` in the enum
`IntegratorPathKernel`. -/
def INTEGRATOR_KERNEL_NUM : Nat := 7

/-- A kernel identifier: an index into the `IntegratorPathKernel` enum
(`intersect_closest = 0`, `intersect_shadow`, `intersect_subsurface`,
`shade_background`, `shade_surface`, `shade_volume`, `shade_shadow`). -/
abbrev IntegratorPathKernel := Fin INTEGRATOR_KERNEL_NUM

def INTEGRATOR_KERNEL_intersect_closest : IntegratorPathKernel := ⟨0, by decide⟩
def INTEGRATOR_KERNEL_intersect_shadow : IntegratorPathKernel := ⟨1, by decide⟩
def INTEGRATOR_KERNEL_shade_background : IntegratorPathKernel := ⟨3, by decide⟩
def INTEGRATOR_KERNEL_shade_surface : IntegratorPathKernel := ⟨4, by decide⟩

/-- The bit `(1 << INTEGRATOR_KERNEL_k)` used in the queued-kernels bitmask. -/
def kbit (k : IntegratorPathKernel) : Nat := 1 <<< k.val

/-- `m |= (1 << k)` on the queued-kernels bitmask. -/
def setBit (m : Nat) (k : IntegratorPathKernel) : Nat := m ||| kbit k

/-- `m &= ~(1 << k)` on the queued-kernels bitmask, with `~` the 32-bit
complement. -/
def clearBit (m : Nat) (k : IntegratorPathKernel) : Nat :=
  m &&& ((M32 - 1) ^^^ kbit k)

/-- `atomic_fetch_and_add_uint32(&c, 1)`: the stored result on a `uint32_t`. -/
def atomic_add_one (c : Nat) : Nat := (c + 1) % M32

/-- `atomic_fetch_and_sub_uint32(&c, 1)`: the stored result on a `uint32_t`. -/
def atomic_sub_one (c : Nat) : Nat := (c + (M32 - 1)) % M32

/-- Per-path state touched by the control-flow macros: the liveness `flag`
and the `queued_kernels` bitmask (both `uint32_t` words of the path state). -/
structure IntegratorPathState where
  flag : Nat
  queued_kernels : Nat
deriving DecidableEq, Repr

/-- `IntegratorPathQueue`: one counter per kernel kind
(`int num_queued[INTEGRATOR_KERNEL_NUM]`). -/
structure IntegratorPathQueue where
  num_queued : IntegratorPathKernel → Nat
deriving DecidableEq

/-- The state a single path's control-flow macros read and write: the shared
queue counters, the main path and the shadow path. -/
structure DeviceState where
  queue : IntegratorPathQueue
  path : IntegratorPathState
  shadow_path : IntegratorPathState
deriving DecidableEq

/-- `INTEGRATOR_PATH_IS_TERMINATED`: `INTEGRATOR_STATE(path, flag) == 0`. -/
def INTEGRATOR_PATH_IS_TERMINATED (s : DeviceState) : Prop := s.path.flag = 0

/-- `INTEGRATOR_SHADOW_PATH_IS_TERMINATED`:
`INTEGRATOR_STATE(shadow_path, flag) == 0`. -/
def INTEGRATOR_SHADOW_PATH_IS_TERMINATED (s : DeviceState) : Prop :=
  s.shadow_path.flag = 0

/-- `INTEGRATOR_PATH_INIT(next_kernel)`, `__KERNEL_GPU__` variant:
increment `num_queued[next_kernel]`, set `next_kernel`'s bit in
`path.queued_kernels`. -/
def INTEGRATOR_PATH_INIT (next_kernel : IntegratorPathKernel) (s : DeviceState) :
    DeviceState :=
  { s with
    queue := ⟨Function.update s.queue.num_queued next_kernel
      (atomic_add_one (s.queue.num_queued next_kernel))⟩,
    path := { s.path with
      queued_kernels := setBit s.path.queued_kernels next_kernel } }

/-- `INTEGRATOR_PATH_NEXT(current_kernel, next_kernel)`, `__KERNEL_GPU__`
variant: decrement `num_queued[current_kernel]`, increment
`num_queued[next_kernel]`, then `queued_kernels |= (1 << next_kernel)`
followed by `queued_kernels &= ~(1 << current_kernel)`, in that order. -/
def INTEGRATOR_PATH_NEXT (current_kernel next_kernel : IntegratorPathKernel)
    (s : DeviceState) : DeviceState :=
  let q1 := Function.update s.queue.num_queued current_kernel
    (atomic_sub_one (s.queue.num_queued current_kernel))
  let q2 := Function.update q1 next_kernel (atomic_add_one (q1 next_kernel))
  { s with
    queue := ⟨q2⟩,
    path := { s.path with
      queued_kernels :=
        clearBit (setBit s.path.queued_kernels next_kernel) current_kernel } }

/-- `INTEGRATOR_PATH_TERMINATE(current_kernel)`, `__KERNEL_GPU__` variant:
decrement `num_queued[current_kernel]`, clear `current_kernel`'s bit in
`path.queued_kernels`, write `path.flag = 0`. -/
def INTEGRATOR_PATH_TERMINATE (current_kernel : IntegratorPathKernel)
    (s : DeviceState) : DeviceState :=
  { s with
    queue := ⟨Function.update s.queue.num_queued current_kernel
      (atomic_sub_one (s.queue.num_queued current_kernel))⟩,
    path := { flag := 0,
              queued_kernels := clearBit s.path.queued_kernels current_kernel } }

/-- `INTEGRATOR_SHADOW_PATH_INIT(next_kernel)`, `__KERNEL_GPU__` variant. -/
def INTEGRATOR_SHADOW_PATH_INIT (next_kernel : IntegratorPathKernel)
    (s : DeviceState) : DeviceState :=
  { s with
    queue := ⟨Function.update s.queue.num_queued next_kernel
      (atomic_add_one (s.queue.num_queued next_kernel))⟩,
    shadow_path := { s.shadow_path with
      queued_kernels := setBit s.shadow_path.queued_kernels next_kernel } }

/-- `INTEGRATOR_SHADOW_PATH_NEXT(current_kernel, next_kernel)`,
`__KERNEL_GPU__` variant. -/
def INTEGRATOR_SHADOW_PATH_NEXT (current_kernel next_kernel : IntegratorPathKernel)
    (s : DeviceState) : DeviceState :=
  let q1 := Function.update s.queue.num_queued current_kernel
    (atomic_sub_one (s.queue.num_queued current_kernel))
  let q2 := Function.update q1 next_kernel (atomic_add_one (q1 next_kernel))
  { s with
    queue := ⟨q2⟩,
    shadow_path := { s.shadow_path with
      queued_kernels :=
        clearBit (setBit s.shadow_path.queued_kernels next_kernel) current_kernel } }

/-- `INTEGRATOR_SHADOW_PATH_TERMINATE(current_kernel)`, `__KERNEL_GPU__`
variant. -/
def INTEGRATOR_SHADOW_PATH_TERMINATE (current_kernel : IntegratorPathKernel)
    (s : DeviceState) : DeviceState :=
  { s with
    queue := ⟨Function.update s.queue.num_queued current_kernel
      (atomic_sub_one (s.queue.num_queued current_kernel))⟩,
    shadow_path :=
      { flag := 0,
        queued_kernels := clearBit s.shadow_path.queued_kernels current_kernel } }

/-- Host (non-`__KERNEL_GPU__`) variant of `INTEGRATOR_PATH_INIT`: expands to
nothing. -/
def hostPathInit (_next_kernel : IntegratorPathKernel) (s : DeviceState) :
    DeviceState := s

/-- Host variant of `INTEGRATOR_PATH_NEXT`: expands to nothing. -/
def hostPathNext (_current_kernel _next_kernel : IntegratorPathKernel)
    (s : DeviceState) : DeviceState := s

/-- Host variant of `INTEGRATOR_PATH_TERMINATE`: only
`INTEGRATOR_STATE_WRITE(path, flag) = 0`. -/
def hostPathTerminate (_current_kernel : IntegratorPathKernel) (s : DeviceState) :
    DeviceState :=
  { s with path := { s.path with flag := 0 } }

/-- Host variant of `INTEGRATOR_SHADOW_PATH_INIT`: expands to nothing. -/
def hostShadowPathInit (_next_kernel : IntegratorPathKernel) (s : DeviceState) :
    DeviceState := s

/-- Host variant of `INTEGRATOR_SHADOW_PATH_NEXT`: expands to nothing. -/
def hostShadowPathNext (_current_kernel _next_kernel : IntegratorPathKernel)
    (s : DeviceState) : DeviceState := s

/-- Host variant of `INTEGRATOR_SHADOW_PATH_TERMINATE`: only
`INTEGRATOR_STATE_WRITE(shadow_path, flag) = 0`. -/
def hostShadowPathTerminate (_current_kernel : IntegratorPathKernel)
    (s : DeviceState) : DeviceState :=
  { s with shadow_path := { s.shadow_path with flag := 0 } }

/-- One invocation of a control-flow macro, for comparing the
`__KERNEL_GPU__` and host expansions on equal op sequences. -/
inductive PathOp where
  | init (next_kernel : IntegratorPathKernel)
  | next (current_kernel next_kernel : IntegratorPathKernel)
  | terminate (current_kernel : IntegratorPathKernel)
  | shadowInit (next_kernel : IntegratorPathKernel)
  | shadowNext (current_kernel next_kernel : IntegratorPathKernel)
  | shadowTerminate (current_kernel : IntegratorPathKernel)
deriving DecidableEq

/-- Apply one op with the `__KERNEL_GPU__` macro expansions. -/
def gpuApply (op : PathOp) (s : DeviceState) : DeviceState :=
  match op with
  | .init k => INTEGRATOR_PATH_INIT k s
  | .next c n => INTEGRATOR_PATH_NEXT c n s
  | .terminate c => INTEGRATOR_PATH_TERMINATE c s
  | .shadowInit k => INTEGRATOR_SHADOW_PATH_INIT k s
  | .shadowNext c n => INTEGRATOR_SHADOW_PATH_NEXT c n s
  | .shadowTerminate c => INTEGRATOR_SHADOW_PATH_TERMINATE c s

/-- Apply one op with the host macro expansions. -/
def hostApply (op : PathOp) (s : DeviceState) : DeviceState :=
  match op with
  | .init k => hostPathInit k s
  | .next c n => hostPathNext c n s
  | .terminate c => hostPathTerminate c s
  | .shadowInit k => hostShadowPathInit k s
  | .shadowNext c n => hostShadowPathNext c n s
  | .shadowTerminate c => hostShadowPathTerminate c s

/-- Run a sequence of ops with the `__KERNEL_GPU__` expansions. -/
def gpuRun : List PathOp → DeviceState → DeviceState
  | [], s => s
  | op :: ops, s => gpuRun ops (gpuApply op s)

/-- Run a sequence of ops with the host expansions. -/
def hostRun : List PathOp → DeviceState → DeviceState
  | [], s => s
  | op :: ops, s => hostRun ops (hostApply op s)

/-- A single main path's macro-visible state together with the ghost record of
which kernel the path is actually queued on (the protocol obligation that each
macro call names the kernel the path is queued on). -/
structure TrackedPath where
  st : IntegratorPathState
  queued_on : Option IntegratorPathKernel
deriving DecidableEq

/-- One protocol step of the per-path state machine built from
`INTEGRATOR_PATH_INIT` / `INTEGRATOR_PATH_NEXT` / `INTEGRATOR_PATH_TERMINATE`
(the init step also models the enclosing kernel making the fresh path live by
writing a non-zero flag). Each step names the kernel the path is actually
queued on (`hq`). With `strict = false` the target of a `next` step is
unrestricted, as in the claim; with `strict = true` a `next` step must move to
a different kernel. -/
inductive PathStep (strict : Bool) : TrackedPath → TrackedPath → Prop where
  | init (k : IntegratorPathKernel) (s : TrackedPath)
      (hflag : s.st.flag = 0) (hmask : s.st.queued_kernels = 0) :
      PathStep strict s ⟨⟨1, setBit s.st.queued_kernels k⟩, some k⟩
  | next (c n : IntegratorPathKernel) (s : TrackedPath)
      (hlive : s.st.flag ≠ 0) (hq : s.queued_on = some c)
      (hstrict : strict = true → c ≠ n) :
      PathStep strict s
        ⟨⟨s.st.flag, clearBit (setBit s.st.queued_kernels n) c⟩, some n⟩
  | terminate (c : IntegratorPathKernel) (s : TrackedPath)
      (hlive : s.st.flag ≠ 0) (hq : s.queued_on = some c) :
      PathStep strict s ⟨⟨0, clearBit s.st.queued_kernels c⟩, none⟩

/-- A path slot before any `INIT`: terminated flag, empty bitmask. -/
def freshTrackedPath : TrackedPath := ⟨⟨0, 0⟩, none⟩

/-- States of one path reachable from a fresh slot by protocol steps. -/
def PathReachable (strict : Bool) (s : TrackedPath) : Prop :=
  Relation.ReflTransGen (PathStep strict) freshTrackedPath s

/-- The queued-kernel bitmask invariant of the spec: a live path's bitmask is
exactly the (single) kernel it is queued on, hence non-zero; a non-live path's
bitmask is zero. -/
def pathMaskInvariant (s : TrackedPath) : Prop :=
  (s.st.flag ≠ 0 →
    (∃ k, s.queued_on = some k ∧ s.st.queued_kernels = kbit k) ∧
      s.st.queued_kernels ≠ 0) ∧
  (s.st.flag = 0 → s.st.queued_kernels = 0)

/-- Shared counters together with a whole batch of `N` path slots. -/
structure BatchState (N : Nat) where
  queue : IntegratorPathQueue
  paths : Fin N → IntegratorPathState

/-- One step of the batch-level state machine: some path slot `i` performs
`INIT` (plus the enclosing kernel setting its flag), `NEXT` or `TERMINATE` on
the shared counters, naming a kernel its bitmask actually holds (`hq`). -/
inductive BatchStep {N : Nat} : BatchState N → BatchState N → Prop where
  | init (i : Fin N) (k : IntegratorPathKernel) (s : BatchState N)
      (hflag : (s.paths i).flag = 0) (hmask : (s.paths i).queued_kernels = 0) :
      BatchStep s
        ⟨⟨Function.update s.queue.num_queued k
            (atomic_add_one (s.queue.num_queued k))⟩,
         Function.update s.paths i ⟨1, setBit (s.paths i).queued_kernels k⟩⟩
  | next (i : Fin N) (c n : IntegratorPathKernel) (s : BatchState N)
      (hlive : (s.paths i).flag ≠ 0)
      (hq : (s.paths i).queued_kernels.testBit c.val = true) :
      BatchStep s
        ⟨⟨Function.update
            (Function.update s.queue.num_queued c
              (atomic_sub_one (s.queue.num_queued c))) n
            (atomic_add_one (Function.update s.queue.num_queued c
              (atomic_sub_one (s.queue.num_queued c)) n))⟩,
         Function.update s.paths i
           ⟨(s.paths i).flag,
            clearBit (setBit (s.paths i).queued_kernels n) c⟩⟩
  | terminate (i : Fin N) (c : IntegratorPathKernel) (s : BatchState N)
      (hlive : (s.paths i).flag ≠ 0)
      (hq : (s.paths i).queued_kernels.testBit c.val = true) :
      BatchStep s
        ⟨⟨Function.update s.queue.num_queued c
            (atomic_sub_one (s.queue.num_queued c))⟩,
         Function.update s.paths i ⟨0, clearBit (s.paths i).queued_kernels c⟩⟩

/-- The batch before any work: all counters zero, every path slot fresh. -/
def batchStart (N : Nat) : BatchState N := ⟨⟨fun _ => 0⟩, fun _ => ⟨0, 0⟩⟩

/-- Batch states reachable from the empty batch. -/
def BatchReachable (N : Nat) (s : BatchState N) : Prop :=
  Relation.ReflTransGen BatchStep (batchStart N) s

/-- Number of paths in the batch whose liveness flag is set. -/
def liveCount {N : Nat} (s : BatchState N) : Nat :=
  ∑ i, if (s.paths i).flag ≠ 0 then 1 else 0

/-- Number of live paths whose bitmask holds kernel `k`. -/
def bitCount {N : Nat} (s : BatchState N) (k : IntegratorPathKernel) : Nat :=
  ∑ i, if (s.paths i).flag ≠ 0 ∧ (s.paths i).queued_kernels.testBit k.val = true
    then 1 else 0

/-- Sum of the `num_queued` counters over all kernel kinds. -/
def queueTotal (q : IntegratorPathQueue) : Nat := ∑ k, q.num_queued k

/-- The inductive batch invariant: the counters sum to the live-path count,
and each kernel's counter dominates the number of live paths holding its
bit. -/
def batchInvariant {N : Nat} (s : BatchState N) : Prop :=
  queueTotal s.queue = liveCount s ∧
    ∀ k, bitCount s k ≤ s.queue.num_queued k

/-- Modelled from the spec: the concrete `DeviceQueue` implementations are not
among the sources (only the abstract interface declaration is). Queue state:
whether any enqueued kernel has reported failure, and how many kernels have
been enqueued since the last `synchronize`. -/
structure DeviceQueueState where
  failed : Bool
  num_unsynced : Nat
deriving DecidableEq

/-- Modelled from the spec: an operation on a `DeviceQueue`; an `enqueue`
carries whether the enqueued kernel itself executes successfully. -/
inductive DeviceQueueOp where
  | enqueue (ok : Bool)
  | synchronize
deriving DecidableEq

/-- Modelled from the spec: state change of one queue operation. A failed
kernel makes the failure flag sticky; `synchronize` drains all enqueued work
(the queue remains usable for diagnostic draining). -/
def deviceQueueApply (s : DeviceQueueState) (op : DeviceQueueOp) : DeviceQueueState :=
  match op with
  | .enqueue ok => ⟨s.failed || !ok, s.num_unsynced + 1⟩
  | .synchronize => ⟨s.failed, 0⟩

/-- Modelled from the spec: boolean result of one queue operation. `enqueue`
returns false if this or any prior enqueue failed; `synchronize` returns false
if any enqueued kernel reported failure. -/
def deviceQueueResult (s : DeviceQueueState) (op : DeviceQueueOp) : Bool :=
  match op with
  | .enqueue ok => !(s.failed || !ok)
  | .synchronize => !s.failed

/-- Run a sequence of queue operations. -/
def deviceQueueRun (s : DeviceQueueState) (ops : List DeviceQueueOp) : DeviceQueueState :=
  ops.foldl deviceQueueApply s

/-- A freshly created queue: no failure, nothing enqueued. -/
def freshDeviceQueue : DeviceQueueState := ⟨false, 0⟩

/-- A spline's state as seen by the "resolution" attribute: its stored
resolution and whether its evaluated-data cache is valid. -/
structure Spline where
  resolution : Int
  cache_valid : Bool
deriving DecidableEq

/-- Modelled from the spec: `Spline::set_resolution` (declared in
`BKE_derived_curve.hh`, which is not among the sources) stores the given value
as the spline's resolution. -/
def Spline.set_resolution (s : Spline) (value : Int) : Spline :=
  { s with resolution := value }

/-- Modelled from the spec: `Spline::mark_cache_invalid` (declared in
`BKE_derived_curve.hh`, not among the sources) marks the spline's evaluation
cache invalid. -/
def Spline.mark_cache_invalid (s : Spline) : Spline :=
  { s with cache_valid := false }

/-- `set_spline_resolution`, the setter installed by
`make_resolution_write_attribute` for the built-in "resolution" attribute:
`spline->set_resolution(std::max(resolution, 1)); spline->mark_cache_invalid();`. -/
def set_spline_resolution (spline : Spline) (resolution : Int) : Spline :=
  (spline.set_resolution (max resolution 1)).mark_cache_invalid
theorem kbit_eq_pow (k : IntegratorPathKernel) : kbit k = 2 ^ k.val := by
  simp [kbit, Nat.shiftLeft_eq]

theorem testBit_kbit (k : IntegratorPathKernel) (j : Nat) :
    (kbit k).testBit j = decide (j = k.val) := by
  rw [kbit_eq_pow, Nat.testBit_two_pow]
  simp [eq_comm]

theorem kbit_ne_zero (k : IntegratorPathKernel) : kbit k ≠ 0 := by
  rw [kbit_eq_pow]
  exact Nat.pos_iff_ne_zero.mp (Nat.pos_pow_of_pos _ (by decide))

theorem testBit_setBit (m : Nat) (k : IntegratorPathKernel) (j : Nat) :
    (setBit m k).testBit j = (m.testBit j || decide (j = k.val)) := by
  rw [setBit, Nat.testBit_or, testBit_kbit]

theorem testBit_clearBit (m : Nat) (k : IntegratorPathKernel) (j : Nat) :
    (clearBit m k).testBit j
      = (m.testBit j && (decide (j < 32) && !decide (j = k.val))) := by
  have hk : k.val < 32 := Nat.lt_trans k.isLt (by decide)
  rw [clearBit, Nat.testBit_and, Nat.testBit_xor, testBit_kbit]
  have hones : M32 - 1 = 2 ^ 32 - 1 := by decide
  rw [hones, Nat.testBit_two_pow_sub_one]
  by_cases hj : j = k.val
  · subst hj
    simp [hk]
  · by_cases h32 : j < 32 <;> simp [hj, h32]

theorem clearBit_le (m : Nat) (k : IntegratorPathKernel) : clearBit m k ≤ m :=
  Nat.and_le_left

theorem setBit_zero (k : IntegratorPathKernel) : setBit 0 k = kbit k := by
  simp [setBit]

theorem setBit_self (k : IntegratorPathKernel) : setBit (kbit k) k = kbit k := by
  simp [setBit]

theorem clearBit_kbit_self (k : IntegratorPathKernel) : clearBit (kbit k) k = 0 := by
  apply Nat.eq_of_testBit_eq
  intro j
  rw [testBit_clearBit, testBit_kbit, Nat.zero_testBit]
  by_cases hj : j = k.val <;> simp [hj]

theorem clearBit_setBit_kbit (c n : IntegratorPathKernel) (h : c ≠ n) :
    clearBit (setBit (kbit c) n) c = kbit n := by
  have hvals : c.val ≠ n.val := fun hv => h (Fin.ext hv)
  have hn : n.val < 32 := Nat.lt_trans n.isLt (by decide)
  apply Nat.eq_of_testBit_eq
  intro j
  rw [testBit_clearBit, testBit_setBit, testBit_kbit, testBit_kbit]
  by_cases hjc : j = c.val
  · subst hjc
    simp [fun hv => hvals hv]
  · by_cases hjn : j = n.val
    · subst hjn
      simp [hjc, hn]
    · simp [hjc, hjn]

theorem atomic_add_one_eq (c : Nat) (h : c + 1 < M32) : atomic_add_one c = c + 1 := by
  unfold atomic_add_one M32 at *
  omega

theorem atomic_sub_one_eq (c : Nat) (h1 : 1 ≤ c) (h2 : c < M32) :
    atomic_sub_one c = c - 1 := by
  unfold atomic_sub_one M32 at *
  omega

theorem atomic_add_sub_one (c : Nat) (h : c < M32) :
    atomic_add_one (atomic_sub_one c) = c := by
  unfold atomic_add_one atomic_sub_one M32 at *
  omega

theorem fsum_split {α : Type} [Fintype α] [DecidableEq α] (f : α → Nat) (k : α) :
    ∑ j, f j = f k + ∑ j in Finset.univ.erase k, f j :=
  (Finset.add_sum_erase _ f (Finset.mem_univ k)).symm

theorem fsum_update {α : Type} [Fintype α] [DecidableEq α] (f : α → Nat) (k : α)
    (v : Nat) :
    ∑ j, Function.update f k v j = v + ∑ j in Finset.univ.erase k, f j := by
  rw [Finset.sum_update_of_mem (Finset.mem_univ k), Finset.erase_eq]

theorem fsum_erase_split {α : Type} [Fintype α] [DecidableEq α] (f : α → Nat)
    (k c : α) (hc : c ≠ k) :
    ∑ j in Finset.univ.erase k, f j
      = f c + ∑ j in (Finset.univ.erase k).erase c, f j :=
  (Finset.add_sum_erase _ f (by simp [hc])).symm

theorem fsum_erase_update {α : Type} [Fintype α] [DecidableEq α] (f : α → Nat)
    (k c : α) (hc : c ≠ k) (v : Nat) :
    ∑ j in Finset.univ.erase k, Function.update f c v j
      = v + ∑ j in (Finset.univ.erase k).erase c, f j := by
  rw [Finset.sum_update_of_mem (by simp [hc] : c ∈ Finset.univ.erase k)]
  simp [Finset.erase_eq]

theorem fsum_erase_congr {α : Type} [Fintype α] [DecidableEq α] (f g : α → Nat)
    (k : α) (h : ∀ j, j ≠ k → f j = g j) :
    ∑ j in Finset.univ.erase k, f j = ∑ j in Finset.univ.erase k, g j :=
  Finset.sum_congr rfl (fun j hj => h j (Finset.mem_erase.mp hj).1)

/-- Moving one unit from slot `c` to slot `n` (in the order the macros do it:
subtract at `c`, then add at `n`) preserves the total over all slots. -/
theorem fsum_update_move {α : Type} [Fintype α] [DecidableEq α] (f : α → Nat)
    (c n : α) (h1 : 1 ≤ f c) :
    (∑ j, Function.update (Function.update f c (f c - 1)) n
      (Function.update f c (f c - 1) n + 1) j) = ∑ j, f j := by
  by_cases hcn : c = n
  · subst hcn
    rw [Function.update_same, Function.update_idem]
    have hc : f c - 1 + 1 = f c := by omega
    rw [hc, Function.update_eq_self]
  · have hnc : n ≠ c := fun h => hcn h.symm
    rw [Function.update_noteq hnc, fsum_update,
      fsum_erase_update f n c (fun h => hcn h),
      fsum_split f n, fsum_erase_split f n c (fun h => hcn h)]
    omega

/-- A concrete device state used by the witnesses: all counters 5, main path
live and queued on `intersect_closest` (bitmask `1`), shadow path live and
queued on `intersect_shadow` (bitmask `2`). -/
def sampleState : DeviceState := ⟨⟨fun _ => 5⟩, ⟨1, 1⟩, ⟨1, 2⟩⟩

/-- C6: the shadow-path macros do not touch the main path's per-path state
(flag and bitmask) and the main-path macros do not touch the shadow path's;
only the shared counter array is common to both. -/
theorem shadow_main_frame_disjoint (s : DeviceState)
    (c n : IntegratorPathKernel) :
    (INTEGRATOR_SHADOW_PATH_INIT n s).path = s.path ∧
    (INTEGRATOR_SHADOW_PATH_NEXT c n s).path = s.path ∧
    (INTEGRATOR_SHADOW_PATH_TERMINATE c s).path = s.path ∧
    (INTEGRATOR_PATH_INIT n s).shadow_path = s.shadow_path ∧
    (INTEGRATOR_PATH_NEXT c n s).shadow_path = s.shadow_path ∧
    (INTEGRATOR_PATH_TERMINATE c s).shadow_path = s.shadow_path :=
  ⟨rfl, rfl, rfl, rfl, rfl, rfl⟩

/-- C10: writing `r` through the "resolution" attribute's setter stores
`max r 1`, so the stored resolution is at least 1, and the spline's
evaluation cache is marked invalid. -/
theorem set_spline_resolution_spec (sp : Spline) (r : Int) :
    (set_spline_resolution sp r).resolution = max r 1 ∧
    1 ≤ (set_spline_resolution sp r).resolution ∧
    (set_spline_resolution sp r).cache_valid = false := by
  refine ⟨rfl, ?_, rfl⟩
  show (1 : Int) ≤ max r 1
  exact le_max_right r 1

/-- C2, counterexample: `INTEGRATOR_PATH_TERMINATE` only clears
`current_kernel`'s bit; on a path whose bitmask is `3` (bits for
`intersect_closest` and `intersect_shadow`), terminating at
`intersect_closest` leaves bitmask `2`, not `0`. -/
theorem terminate_does_not_clear_whole_mask :
    (INTEGRATOR_PATH_TERMINATE INTEGRATOR_KERNEL_intersect_closest
        ⟨⟨fun _ => 5⟩, ⟨1, 3⟩, ⟨0, 0⟩⟩).path.queued_kernels = 2 ∧
    (INTEGRATOR_PATH_TERMINATE INTEGRATOR_KERNEL_intersect_closest
        ⟨⟨fun _ => 5⟩, ⟨1, 3⟩, ⟨0, 0⟩⟩).path.queued_kernels ≠ 0 := by
  constructor
  · decide
  · decide

/-- C2, amended: `INTEGRATOR_PATH_TERMINATE(current_kernel)` decrements
`current_kernel`'s counter by one (leaving the other slots unchanged), clears
`current_kernel`'s bit from the path's bitmask — so the bitmask becomes zero
exactly when it was `current_kernel`'s bit alone, as the protocol guarantees
for a live path — and clears the liveness flag, making
`INTEGRATOR_PATH_IS_TERMINATED` hold. -/
theorem INTEGRATOR_PATH_TERMINATE_spec (s : DeviceState)
    (c : IntegratorPathKernel)
    (h1 : 1 ≤ s.queue.num_queued c) (h2 : s.queue.num_queued c < M32) :
    (INTEGRATOR_PATH_TERMINATE c s).queue.num_queued c
        = s.queue.num_queued c - 1 ∧
    (∀ k, k ≠ c → (INTEGRATOR_PATH_TERMINATE c s).queue.num_queued k
        = s.queue.num_queued k) ∧
    (INTEGRATOR_PATH_TERMINATE c s).path.queued_kernels
        = clearBit s.path.queued_kernels c ∧
    ((INTEGRATOR_PATH_TERMINATE c s).path.queued_kernels).testBit c.val
        = false ∧
    (s.path.queued_kernels = kbit c →
      (INTEGRATOR_PATH_TERMINATE c s).path.queued_kernels = 0) ∧
    (INTEGRATOR_PATH_TERMINATE c s).path.flag = 0 ∧
    INTEGRATOR_PATH_IS_TERMINATED (INTEGRATOR_PATH_TERMINATE c s) := by
  refine ⟨?_, ?_, rfl, ?_, ?_, rfl, rfl⟩
  · show Function.update s.queue.num_queued c
      (atomic_sub_one (s.queue.num_queued c)) c = s.queue.num_queued c - 1
    rw [Function.update_same, atomic_sub_one_eq _ h1 h2]
  · intro k hk
    show Function.update s.queue.num_queued c
      (atomic_sub_one (s.queue.num_queued c)) k = s.queue.num_queued k
    rw [Function.update_noteq hk]
  · show (clearBit s.path.queued_kernels c).testBit c.val = false
    rw [testBit_clearBit]
    simp
  · intro hm
    show clearBit s.path.queued_kernels c = 0
    rw [hm]
    exact clearBit_kbit_self c

/-- C2 witness: the amended terminate theorem applied at `sampleState` and
kernel `intersect_closest`. -/
theorem INTEGRATOR_PATH_TERMINATE_spec_witness :
    (1 ≤ sampleState.queue.num_queued INTEGRATOR_KERNEL_intersect_closest ∧
      sampleState.queue.num_queued INTEGRATOR_KERNEL_intersect_closest < M32) ∧
    ((INTEGRATOR_PATH_TERMINATE INTEGRATOR_KERNEL_intersect_closest
        sampleState).queue.num_queued INTEGRATOR_KERNEL_intersect_closest
        = sampleState.queue.num_queued INTEGRATOR_KERNEL_intersect_closest - 1 ∧
    (∀ k, k ≠ INTEGRATOR_KERNEL_intersect_closest →
      (INTEGRATOR_PATH_TERMINATE INTEGRATOR_KERNEL_intersect_closest
        sampleState).queue.num_queued k = sampleState.queue.num_queued k) ∧
    (INTEGRATOR_PATH_TERMINATE INTEGRATOR_KERNEL_intersect_closest
        sampleState).path.queued_kernels
        = clearBit sampleState.path.queued_kernels
            INTEGRATOR_KERNEL_intersect_closest ∧
    ((INTEGRATOR_PATH_TERMINATE INTEGRATOR_KERNEL_intersect_closest
        sampleState).path.queued_kernels).testBit
          INTEGRATOR_KERNEL_intersect_closest.val = false ∧
    (sampleState.path.queued_kernels = kbit INTEGRATOR_KERNEL_intersect_closest →
      (INTEGRATOR_PATH_TERMINATE INTEGRATOR_KERNEL_intersect_closest
        sampleState).path.queued_kernels = 0) ∧
    (INTEGRATOR_PATH_TERMINATE INTEGRATOR_KERNEL_intersect_closest
        sampleState).path.flag = 0 ∧
    INTEGRATOR_PATH_IS_TERMINATED
      (INTEGRATOR_PATH_TERMINATE INTEGRATOR_KERNEL_intersect_closest
        sampleState)) :=
  ⟨⟨by decide, by decide⟩,
    INTEGRATOR_PATH_TERMINATE_spec sampleState INTEGRATOR_KERNEL_intersect_closest
      (by decide) (by decide)⟩

/-- C3: for distinct kernels, `INTEGRATOR_PATH_NEXT(current, next)` decrements
`current`'s counter by one, increments `next`'s counter by one, leaves every
other counter slot unchanged, clears `current`'s bit and sets `next`'s bit in
the path's bitmask, and leaves the liveness flag (and the whole shadow path)
unchanged. -/
theorem INTEGRATOR_PATH_NEXT_spec (s : DeviceState)
    (c n : IntegratorPathKernel) (hcn : c ≠ n)
    (h1 : 1 ≤ s.queue.num_queued c) (h2 : s.queue.num_queued c < M32)
    (h3 : s.queue.num_queued n + 1 < M32) :
    (INTEGRATOR_PATH_NEXT c n s).queue.num_queued c
        = s.queue.num_queued c - 1 ∧
    (INTEGRATOR_PATH_NEXT c n s).queue.num_queued n
        = s.queue.num_queued n + 1 ∧
    (∀ k, k ≠ c → k ≠ n →
      (INTEGRATOR_PATH_NEXT c n s).queue.num_queued k = s.queue.num_queued k) ∧
    ((INTEGRATOR_PATH_NEXT c n s).path.queued_kernels).testBit c.val = false ∧
    ((INTEGRATOR_PATH_NEXT c n s).path.queued_kernels).testBit n.val = true ∧
    (INTEGRATOR_PATH_NEXT c n s).path.flag = s.path.flag ∧
    (INTEGRATOR_PATH_NEXT c n s).shadow_path = s.shadow_path := by
  have hvals : n.val ≠ c.val := fun hv => hcn (Fin.ext hv.symm)
  have hn32 : n.val < 32 := Nat.lt_trans n.isLt (by decide)
  refine ⟨?_, ?_, ?_, ?_, ?_, rfl, rfl⟩
  · show Function.update
      (Function.update s.queue.num_queued c (atomic_sub_one (s.queue.num_queued c))) n
      (atomic_add_one (Function.update s.queue.num_queued c
        (atomic_sub_one (s.queue.num_queued c)) n)) c = s.queue.num_queued c - 1
    rw [Function.update_noteq hcn, Function.update_same,
      atomic_sub_one_eq _ h1 h2]
  · show Function.update
      (Function.update s.queue.num_queued c (atomic_sub_one (s.queue.num_queued c))) n
      (atomic_add_one (Function.update s.queue.num_queued c
        (atomic_sub_one (s.queue.num_queued c)) n)) n = s.queue.num_queued n + 1
    rw [Function.update_same,
      Function.update_noteq (fun hv => hcn hv.symm), atomic_add_one_eq _ h3]
  · intro k hkc hkn
    show Function.update
      (Function.update s.queue.num_queued c (atomic_sub_one (s.queue.num_queued c))) n
      (atomic_add_one (Function.update s.queue.num_queued c
        (atomic_sub_one (s.queue.num_queued c)) n)) k = s.queue.num_queued k
    rw [Function.update_noteq hkn, Function.update_noteq hkc]
  · show (clearBit (setBit s.path.queued_kernels n) c).testBit c.val = false
    rw [testBit_clearBit]
    simp
  · show (clearBit (setBit s.path.queued_kernels n) c).testBit n.val = true
    rw [testBit_clearBit, testBit_setBit]
    simp [hvals, hn32]

/-- C3 witness: the `NEXT` theorem applied at `sampleState`, moving from
`intersect_closest` to `shade_surface`. -/
theorem INTEGRATOR_PATH_NEXT_spec_witness :
    (INTEGRATOR_KERNEL_intersect_closest ≠ INTEGRATOR_KERNEL_shade_surface ∧
      1 ≤ sampleState.queue.num_queued INTEGRATOR_KERNEL_intersect_closest ∧
      sampleState.queue.num_queued INTEGRATOR_KERNEL_intersect_closest < M32 ∧
      sampleState.queue.num_queued INTEGRATOR_KERNEL_shade_surface + 1 < M32) ∧
    ((INTEGRATOR_PATH_NEXT INTEGRATOR_KERNEL_intersect_closest
        INTEGRATOR_KERNEL_shade_surface sampleState).queue.num_queued
          INTEGRATOR_KERNEL_intersect_closest
        = sampleState.queue.num_queued INTEGRATOR_KERNEL_intersect_closest - 1 ∧
    (INTEGRATOR_PATH_NEXT INTEGRATOR_KERNEL_intersect_closest
        INTEGRATOR_KERNEL_shade_surface sampleState).queue.num_queued
          INTEGRATOR_KERNEL_shade_surface
        = sampleState.queue.num_queued INTEGRATOR_KERNEL_shade_surface + 1 ∧
    (∀ k, k ≠ INTEGRATOR_KERNEL_intersect_closest →
        k ≠ INTEGRATOR_KERNEL_shade_surface →
      (INTEGRATOR_PATH_NEXT INTEGRATOR_KERNEL_intersect_closest
        INTEGRATOR_KERNEL_shade_surface sampleState).queue.num_queued k
        = sampleState.queue.num_queued k) ∧
    ((INTEGRATOR_PATH_NEXT INTEGRATOR_KERNEL_intersect_closest
        INTEGRATOR_KERNEL_shade_surface sampleState).path.queued_kernels).testBit
          INTEGRATOR_KERNEL_intersect_closest.val = false ∧
    ((INTEGRATOR_PATH_NEXT INTEGRATOR_KERNEL_intersect_closest
        INTEGRATOR_KERNEL_shade_surface sampleState).path.queued_kernels).testBit
          INTEGRATOR_KERNEL_shade_surface.val = true ∧
    (INTEGRATOR_PATH_NEXT INTEGRATOR_KERNEL_intersect_closest
        INTEGRATOR_KERNEL_shade_surface sampleState).path.flag
        = sampleState.path.flag ∧
    (INTEGRATOR_PATH_NEXT INTEGRATOR_KERNEL_intersect_closest
        INTEGRATOR_KERNEL_shade_surface sampleState).shadow_path
        = sampleState.shadow_path) :=
  ⟨⟨by decide, by decide, by decide, by decide⟩,
    INTEGRATOR_PATH_NEXT_spec sampleState INTEGRATOR_KERNEL_intersect_closest
      INTEGRATOR_KERNEL_shade_surface (by decide) (by decide) (by decide)
      (by decide)⟩

/-- C9: the degenerate self-transition `INTEGRATOR_PATH_NEXT(K, K)` leaves
every counter slot unchanged (the decrement and increment cancel), but — the
bit-set `|=` being executed before the bit-clear `&= ~` — ends with `K`'s bit
cleared; in particular a live path queued exactly on `K` ends live with a zero
bitmask. -/
theorem INTEGRATOR_PATH_NEXT_self_spec (s : DeviceState)
    (k : IntegratorPathKernel) (h : s.queue.num_queued k < M32) :
    (INTEGRATOR_PATH_NEXT k k s).queue.num_queued = s.queue.num_queued ∧
    ((INTEGRATOR_PATH_NEXT k k s).path.queued_kernels).testBit k.val = false ∧
    (INTEGRATOR_PATH_NEXT k k s).path.flag = s.path.flag ∧
    (s.path.queued_kernels = kbit k →
      (INTEGRATOR_PATH_NEXT k k s).path.queued_kernels = 0) := by
  refine ⟨?_, ?_, rfl, ?_⟩
  · show Function.update
      (Function.update s.queue.num_queued k (atomic_sub_one (s.queue.num_queued k))) k
      (atomic_add_one (Function.update s.queue.num_queued k
        (atomic_sub_one (s.queue.num_queued k)) k)) = s.queue.num_queued
    rw [Function.update_same, Function.update_idem, atomic_add_sub_one _ h,
      Function.update_eq_self]
  · show (clearBit (setBit s.path.queued_kernels k) k).testBit k.val = false
    rw [testBit_clearBit]
    simp
  · intro hm
    show clearBit (setBit s.path.queued_kernels k) k = 0
    rw [hm, setBit_self]
    exact clearBit_kbit_self k

/-- C9 witness: the self-transition theorem applied at `sampleState` on
`intersect_closest` (the kernel `sampleState`'s main path is queued on). -/
theorem INTEGRATOR_PATH_NEXT_self_spec_witness :
    (sampleState.queue.num_queued INTEGRATOR_KERNEL_intersect_closest < M32) ∧
    ((INTEGRATOR_PATH_NEXT INTEGRATOR_KERNEL_intersect_closest
        INTEGRATOR_KERNEL_intersect_closest sampleState).queue.num_queued
        = sampleState.queue.num_queued ∧
    ((INTEGRATOR_PATH_NEXT INTEGRATOR_KERNEL_intersect_closest
        INTEGRATOR_KERNEL_intersect_closest sampleState).path.queued_kernels).testBit
          INTEGRATOR_KERNEL_intersect_closest.val = false ∧
    (INTEGRATOR_PATH_NEXT INTEGRATOR_KERNEL_intersect_closest
        INTEGRATOR_KERNEL_intersect_closest sampleState).path.flag
        = sampleState.path.flag ∧
    (sampleState.path.queued_kernels = kbit INTEGRATOR_KERNEL_intersect_closest →
      (INTEGRATOR_PATH_NEXT INTEGRATOR_KERNEL_intersect_closest
        INTEGRATOR_KERNEL_intersect_closest sampleState).path.queued_kernels = 0)) :=
  ⟨by decide,
    INTEGRATOR_PATH_NEXT_self_spec sampleState
      INTEGRATOR_KERNEL_intersect_closest (by decide)⟩

/-- C5: `INTEGRATOR_PATH_INIT(next_kernel)` increments `next_kernel`'s counter
by one, changes no other counter slot, sets `next_kernel`'s bit in the path's
bitmask and leaves the flag unchanged; and the one-unit accounting holds: an
`INIT` raises the counter total by one, a `NEXT` moves its unit (total
unchanged), a `TERMINATE` removes it (total drops by one). -/
theorem INTEGRATOR_PATH_INIT_spec (s : DeviceState)
    (c n : IntegratorPathKernel)
    (h1 : 1 ≤ s.queue.num_queued c) (h2 : s.queue.num_queued c < M32)
    (h3 : s.queue.num_queued n + 1 < M32) :
    (INTEGRATOR_PATH_INIT n s).queue.num_queued n
        = s.queue.num_queued n + 1 ∧
    (∀ k, k ≠ n →
      (INTEGRATOR_PATH_INIT n s).queue.num_queued k = s.queue.num_queued k) ∧
    ((INTEGRATOR_PATH_INIT n s).path.queued_kernels).testBit n.val = true ∧
    (INTEGRATOR_PATH_INIT n s).path.flag = s.path.flag ∧
    queueTotal (INTEGRATOR_PATH_INIT n s).queue = queueTotal s.queue + 1 ∧
    queueTotal (INTEGRATOR_PATH_NEXT c n s).queue = queueTotal s.queue ∧
    queueTotal (INTEGRATOR_PATH_TERMINATE c s).queue = queueTotal s.queue - 1 := by
  refine ⟨?_, ?_, ?_, rfl, ?_, ?_, ?_⟩
  · show Function.update s.queue.num_queued n
      (atomic_add_one (s.queue.num_queued n)) n = s.queue.num_queued n + 1
    rw [Function.update_same, atomic_add_one_eq _ h3]
  · intro k hk
    show Function.update s.queue.num_queued n
      (atomic_add_one (s.queue.num_queued n)) k = s.queue.num_queued k
    rw [Function.update_noteq hk]
  · show (setBit s.path.queued_kernels n).testBit n.val = true
    rw [testBit_setBit]
    simp
  · show (∑ j, Function.update s.queue.num_queued n
        (atomic_add_one (s.queue.num_queued n)) j)
      = (∑ j, s.queue.num_queued j) + 1
    rw [atomic_add_one_eq _ h3, fsum_update, fsum_split s.queue.num_queued n]
    omega
  · show (∑ j, Function.update
        (Function.update s.queue.num_queued c (atomic_sub_one (s.queue.num_queued c))) n
        (atomic_add_one (Function.update s.queue.num_queued c
          (atomic_sub_one (s.queue.num_queued c)) n)) j)
      = ∑ j, s.queue.num_queued j
    rw [atomic_sub_one_eq _ h1 h2]
    have hadd : Function.update s.queue.num_queued c
        (s.queue.num_queued c - 1) n + 1 < M32 := by
      by_cases hcn : c = n
      · subst hcn
        rw [Function.update_same]
        omega
      · rw [Function.update_noteq (fun hv => hcn hv.symm)]
        omega
    rw [atomic_add_one_eq _ hadd]
    exact fsum_update_move s.queue.num_queued c n h1
  · show (∑ j, Function.update s.queue.num_queued c
        (atomic_sub_one (s.queue.num_queued c)) j)
      = (∑ j, s.queue.num_queued j) - 1
    rw [atomic_sub_one_eq _ h1 h2, fsum_update, fsum_split s.queue.num_queued c]
    omega

/-- C5 witness: the `INIT` accounting theorem applied at `sampleState` with
`current = intersect_closest`, `next = shade_surface`. -/
theorem INTEGRATOR_PATH_INIT_spec_witness :
    (1 ≤ sampleState.queue.num_queued INTEGRATOR_KERNEL_intersect_closest ∧
      sampleState.queue.num_queued INTEGRATOR_KERNEL_intersect_closest < M32 ∧
      sampleState.queue.num_queued INTEGRATOR_KERNEL_shade_surface + 1 < M32) ∧
    ((INTEGRATOR_PATH_INIT INTEGRATOR_KERNEL_shade_surface
        sampleState).queue.num_queued INTEGRATOR_KERNEL_shade_surface
        = sampleState.queue.num_queued INTEGRATOR_KERNEL_shade_surface + 1 ∧
    (∀ k, k ≠ INTEGRATOR_KERNEL_shade_surface →
      (INTEGRATOR_PATH_INIT INTEGRATOR_KERNEL_shade_surface
        sampleState).queue.num_queued k = sampleState.queue.num_queued k) ∧
    ((INTEGRATOR_PATH_INIT INTEGRATOR_KERNEL_shade_surface
        sampleState).path.queued_kernels).testBit
          INTEGRATOR_KERNEL_shade_surface.val = true ∧
    (INTEGRATOR_PATH_INIT INTEGRATOR_KERNEL_shade_surface sampleState).path.flag
        = sampleState.path.flag ∧
    queueTotal (INTEGRATOR_PATH_INIT INTEGRATOR_KERNEL_shade_surface
        sampleState).queue = queueTotal sampleState.queue + 1 ∧
    queueTotal (INTEGRATOR_PATH_NEXT INTEGRATOR_KERNEL_intersect_closest
        INTEGRATOR_KERNEL_shade_surface sampleState).queue
        = queueTotal sampleState.queue ∧
    queueTotal (INTEGRATOR_PATH_TERMINATE INTEGRATOR_KERNEL_intersect_closest
        sampleState).queue = queueTotal sampleState.queue - 1) :=
  ⟨⟨by decide, by decide, by decide⟩,
    INTEGRATOR_PATH_INIT_spec sampleState INTEGRATOR_KERNEL_intersect_closest
      INTEGRATOR_KERNEL_shade_surface (by decide) (by decide) (by decide)⟩

/-- Flags evolve identically under the GPU and host expansions: only the
`TERMINATE` macros touch a flag, and both variants write the same zero. -/
theorem gpu_host_flag_aux : ∀ (ops : List PathOp) (s t : DeviceState),
    s.path.flag = t.path.flag → s.shadow_path.flag = t.shadow_path.flag →
    (gpuRun ops s).path.flag = (hostRun ops t).path.flag ∧
    (gpuRun ops s).shadow_path.flag = (hostRun ops t).shadow_path.flag := by
  intro ops
  induction ops with
  | nil => exact fun s t hp hs => ⟨hp, hs⟩
  | cons op ops ih =>
    intro s t hp hs
    have h1 : (gpuApply op s).path.flag = (hostApply op t).path.flag := by
      cases op <;>
        simp [gpuApply, hostApply, INTEGRATOR_PATH_INIT, INTEGRATOR_PATH_NEXT,
          INTEGRATOR_PATH_TERMINATE, INTEGRATOR_SHADOW_PATH_INIT,
          INTEGRATOR_SHADOW_PATH_NEXT, INTEGRATOR_SHADOW_PATH_TERMINATE,
          hostPathInit, hostPathNext, hostPathTerminate, hostShadowPathInit,
          hostShadowPathNext, hostShadowPathTerminate, hp, hs]
    have h2 : (gpuApply op s).shadow_path.flag = (hostApply op t).shadow_path.flag := by
      cases op <;>
        simp [gpuApply, hostApply, INTEGRATOR_PATH_INIT, INTEGRATOR_PATH_NEXT,
          INTEGRATOR_PATH_TERMINATE, INTEGRATOR_SHADOW_PATH_INIT,
          INTEGRATOR_SHADOW_PATH_NEXT, INTEGRATOR_SHADOW_PATH_TERMINATE,
          hostPathInit, hostPathNext, hostPathTerminate, hostShadowPathInit,
          hostShadowPathNext, hostShadowPathTerminate, hp, hs]
    simpa [gpuRun, hostRun] using ih (gpuApply op s) (hostApply op t) h1 h2

/-- C7: from a common initial state, after any sequence of macro invocations
the GPU-variant and host-variant expansions agree on both liveness flags (so
`INTEGRATOR_PATH_IS_TERMINATED` and the shadow test agree); the host variants
of `INIT` and `NEXT` change no state at all; and both variants of the two
`TERMINATE` macros write a zero flag. Counters and queued-kernel bitmasks are
the only components on which the variants may differ. -/
theorem gpu_host_variants_agree (ops : List PathOp) (s : DeviceState) :
    (gpuRun ops s).path.flag = (hostRun ops s).path.flag ∧
    (gpuRun ops s).shadow_path.flag = (hostRun ops s).shadow_path.flag ∧
    (INTEGRATOR_PATH_IS_TERMINATED (gpuRun ops s) ↔
      INTEGRATOR_PATH_IS_TERMINATED (hostRun ops s)) ∧
    (INTEGRATOR_SHADOW_PATH_IS_TERMINATED (gpuRun ops s) ↔
      INTEGRATOR_SHADOW_PATH_IS_TERMINATED (hostRun ops s)) ∧
    (∀ (k : IntegratorPathKernel) (u : DeviceState), hostPathInit k u = u) ∧
    (∀ (c n : IntegratorPathKernel) (u : DeviceState), hostPathNext c n u = u) ∧
    (∀ (k : IntegratorPathKernel) (u : DeviceState), hostShadowPathInit k u = u) ∧
    (∀ (c n : IntegratorPathKernel) (u : DeviceState),
      hostShadowPathNext c n u = u) ∧
    (∀ (c : IntegratorPathKernel) (u : DeviceState),
      (INTEGRATOR_PATH_TERMINATE c u).path.flag = 0 ∧
      (hostPathTerminate c u).path.flag = 0 ∧
      (INTEGRATOR_SHADOW_PATH_TERMINATE c u).shadow_path.flag = 0 ∧
      (hostShadowPathTerminate c u).shadow_path.flag = 0) := by
  obtain ⟨hp, hs⟩ := gpu_host_flag_aux ops s s rfl rfl
  exact ⟨hp, hs, by rw [INTEGRATOR_PATH_IS_TERMINATED,
      INTEGRATOR_PATH_IS_TERMINATED, hp],
    by rw [INTEGRATOR_SHADOW_PATH_IS_TERMINATED,
      INTEGRATOR_SHADOW_PATH_IS_TERMINATED, hs],
    fun _ _ => rfl, fun _ _ _ => rfl, fun _ _ => rfl, fun _ _ _ => rfl,
    fun _ _ => ⟨rfl, rfl, rfl, rfl⟩⟩

theorem fsum_indicator_le_card {α : Type} [Fintype α] [DecidableEq α]
    (t : Finset α) (f : α → Nat) (hf : ∀ j, f j ≤ 1) :
    ∑ j in t, f j ≤ t.card := by
  calc ∑ j in t, f j ≤ ∑ _j in t, 1 := Finset.sum_le_sum (fun j _ => hf j)
  _ = t.card := by simp

theorem queueTotal_mk_update (f : IntegratorPathKernel → Nat)
    (k : IntegratorPathKernel) (v : Nat) :
    queueTotal ⟨Function.update f k v⟩ = v + ∑ j in Finset.univ.erase k, f j :=
  fsum_update f k v

theorem queueTotal_split (q : IntegratorPathQueue) (k : IntegratorPathKernel) :
    queueTotal q = q.num_queued k + ∑ j in Finset.univ.erase k, q.num_queued j :=
  fsum_split q.num_queued k

theorem num_queued_le_queueTotal (q : IntegratorPathQueue)
    (k : IntegratorPathKernel) : q.num_queued k ≤ queueTotal q :=
  Finset.single_le_sum (fun j _ => Nat.zero_le (q.num_queued j))
    (Finset.mem_univ k)

theorem liveCount_update {N : Nat} (q : IntegratorPathQueue)
    (p : Fin N → IntegratorPathState) (i : Fin N) (v : IntegratorPathState) :
    liveCount ⟨q, Function.update p i v⟩
      = (if v.flag ≠ 0 then 1 else 0)
        + ∑ j in Finset.univ.erase i, (if (p j).flag ≠ 0 then 1 else 0) := by
  show (∑ j, if (Function.update p i v j).flag ≠ 0 then 1 else 0) = _
  rw [fsum_split (fun j => if (Function.update p i v j).flag ≠ 0 then 1 else 0) i]
  rw [Function.update_same]
  congr 1
  exact fsum_erase_congr _ _ i (fun j hj => by rw [Function.update_noteq hj])

theorem liveCount_split {N : Nat} (s : BatchState N) (i : Fin N) :
    liveCount s
      = (if (s.paths i).flag ≠ 0 then 1 else 0)
        + ∑ j in Finset.univ.erase i, (if (s.paths j).flag ≠ 0 then 1 else 0) :=
  fsum_split (fun j => if (s.paths j).flag ≠ 0 then 1 else 0) i

theorem liveCount_le {N : Nat} (s : BatchState N) : liveCount s ≤ N := by
  have h := fsum_indicator_le_card (Finset.univ : Finset (Fin N))
    (fun j => if (s.paths j).flag ≠ 0 then 1 else 0)
    (fun j => by by_cases hj : (s.paths j).flag ≠ 0 <;> simp [hj])
  rw [Finset.card_univ, Fintype.card_fin] at h
  exact h

theorem bitCount_update {N : Nat} (q : IntegratorPathQueue)
    (p : Fin N → IntegratorPathState) (i : Fin N) (v : IntegratorPathState)
    (k : IntegratorPathKernel) :
    bitCount ⟨q, Function.update p i v⟩ k
      = (if v.flag ≠ 0 ∧ v.queued_kernels.testBit k.val = true then 1 else 0)
        + ∑ j in Finset.univ.erase i,
            (if (p j).flag ≠ 0 ∧ (p j).queued_kernels.testBit k.val = true
              then 1 else 0) := by
  show (∑ j, if (Function.update p i v j).flag ≠ 0 ∧
      (Function.update p i v j).queued_kernels.testBit k.val = true
      then 1 else 0) = _
  rw [fsum_split (fun j => if (Function.update p i v j).flag ≠ 0 ∧
    (Function.update p i v j).queued_kernels.testBit k.val = true
    then 1 else 0) i]
  rw [Function.update_same]
  congr 1
  exact fsum_erase_congr _ _ i (fun j hj => by rw [Function.update_noteq hj])

theorem bitCount_split {N : Nat} (s : BatchState N) (i : Fin N)
    (k : IntegratorPathKernel) :
    bitCount s k
      = (if (s.paths i).flag ≠ 0 ∧
            (s.paths i).queued_kernels.testBit k.val = true then 1 else 0)
        + ∑ j in Finset.univ.erase i,
            (if (s.paths j).flag ≠ 0 ∧
              (s.paths j).queued_kernels.testBit k.val = true then 1 else 0) :=
  fsum_split (fun j => if (s.paths j).flag ≠ 0 ∧
    (s.paths j).queued_kernels.testBit k.val = true then 1 else 0) i

/-- The `NEXT` counter update (subtract at `current`, then add at `next`)
preserves the counter total, also in the degenerate `current = next` case. -/
theorem next_queue_total (f : IntegratorPathKernel → Nat)
    (c n : IntegratorPathKernel) (h1 : 1 ≤ f c) (h2 : f c < M32)
    (h3 : c ≠ n → f n + 1 < M32) :
    queueTotal ⟨Function.update (Function.update f c (atomic_sub_one (f c))) n
      (atomic_add_one (Function.update f c (atomic_sub_one (f c)) n))⟩
      = ∑ j, f j := by
  rw [atomic_sub_one_eq _ h1 h2]
  have hadd : Function.update f c (f c - 1) n + 1 < M32 := by
    by_cases hcn : c = n
    · subst hcn
      rw [Function.update_same]
      omega
    · rw [Function.update_noteq (fun hv => hcn hv.symm)]
      exact h3 hcn
  rw [atomic_add_one_eq _ hadd]
  exact fsum_update_move f c n h1

theorem mk_num_queued (f : IntegratorPathKernel → Nat) (k : IntegratorPathKernel) :
    (⟨f⟩ : IntegratorPathQueue).num_queued k = f k := rfl

/-- Each batch step preserves the batch invariant (counters sum to the number
of live paths; each counter dominates the live paths holding its bit). -/
theorem batchInvariant_step {N : Nat} (hN : N < M32) (s t : BatchState N)
    (hs : batchInvariant s) (hst : BatchStep s t) : batchInvariant t := by
  obtain ⟨hsum, hbits⟩ := hs
  cases hst with
  | init i k u hflag hmask =>
    have hLi : (if (s.paths i).flag ≠ 0 then (1:Nat) else 0) = 0 := by
      simp [hflag]
    have hLsplit := liveCount_split s i
    have hEla : ∑ j in Finset.univ.erase i,
        (if (s.paths j).flag ≠ 0 then (1:Nat) else 0) ≤ N - 1 := by
      have hc := fsum_indicator_le_card (Finset.univ.erase i)
        (fun j => if (s.paths j).flag ≠ 0 then 1 else 0)
        (fun j => by by_cases hj : (s.paths j).flag ≠ 0 <;> simp [hj])
      rw [Finset.card_erase_of_mem (Finset.mem_univ i), Finset.card_univ,
        Fintype.card_fin] at hc
      exact hc
    have hfk_le := num_queued_le_queueTotal s.queue k
    have hNpos : 0 < N := i.pos
    have hadd : s.queue.num_queued k + 1 < M32 := by omega
    refine ⟨?_, fun kk => ?_⟩
    · rw [atomic_add_one_eq _ hadd, queueTotal_mk_update, liveCount_update]
      have hv : (if (⟨1, setBit (s.paths i).queued_kernels k⟩ :
          IntegratorPathState).flag ≠ 0 then (1:Nat) else 0) = 1 := by simp
      rw [hv]
      have hQsplit := queueTotal_split s.queue k
      omega
    · have hbsplit := bitCount_split s i kk
      have hb := hbits kk
      rw [atomic_add_one_eq _ hadd, bitCount_update, mk_num_queued]
      have hvb : (if (⟨1, setBit (s.paths i).queued_kernels k⟩ :
          IntegratorPathState).flag ≠ 0 ∧
          (⟨1, setBit (s.paths i).queued_kernels k⟩ :
            IntegratorPathState).queued_kernels.testBit kk.val = true
          then (1:Nat) else 0)
          = (if kk.val = k.val then 1 else 0) := by
        simp only [hmask, setBit_zero, testBit_kbit]
        by_cases hkk : kk.val = k.val <;> simp [hkk]
      rw [hvb]
      have hbi0 : (if (s.paths i).flag ≠ 0 ∧
          (s.paths i).queued_kernels.testBit kk.val = true
          then (1:Nat) else 0) = 0 := by simp [hflag]
      by_cases hkk : kk = k
      · subst hkk
        rw [Function.update_same, if_pos rfl]
        omega
      · rw [Function.update_noteq hkk,
          if_neg (fun hv => hkk (Fin.ext hv))]
        omega
  | next i c n u hlive hq =>
    have hbic : (if (s.paths i).flag ≠ 0 ∧
        (s.paths i).queued_kernels.testBit c.val = true
        then (1:Nat) else 0) = 1 := by simp [hlive, hq]
    have hbsplitc := bitCount_split s i c
    have hbc1 : 1 ≤ bitCount s c := by omega
    have hfc1 : 1 ≤ s.queue.num_queued c := le_trans hbc1 (hbits c)
    have hfcT := num_queued_le_queueTotal s.queue c
    have hlN := liveCount_le s
    have hfc2 : s.queue.num_queued c < M32 := by omega
    have hfnT : c ≠ n → s.queue.num_queued n + 1 < M32 := by
      intro hcn
      have h1 := queueTotal_split s.queue c
      have h2 : s.queue.num_queued n ≤ ∑ j in Finset.univ.erase c,
          s.queue.num_queued j :=
        Finset.single_le_sum (fun j _ => Nat.zero_le _)
          (Finset.mem_erase.mpr ⟨fun hv => hcn hv.symm, Finset.mem_univ n⟩)
      omega
    refine ⟨?_, fun kk => ?_⟩
    · rw [next_queue_total s.queue.num_queued c n hfc1 hfc2 hfnT,
        liveCount_update]
      have hLsplit := liveCount_split s i
      have hv : (if (⟨(s.paths i).flag,
          clearBit (setBit (s.paths i).queued_kernels n) c⟩ :
          IntegratorPathState).flag ≠ 0 then (1:Nat) else 0)
          = (if (s.paths i).flag ≠ 0 then 1 else 0) := rfl
      rw [hv]
      have hQL : (∑ j, s.queue.num_queued j) = liveCount s := hsum
      omega
    · have hbsplit := bitCount_split s i kk
      have hb := hbits kk
      have h32 : kk.val < 32 := Nat.lt_trans kk.isLt (by decide)
      rw [bitCount_update, mk_num_queued]
      by_cases hkkc : kk = c
      · subst hkkc
        have hvb : (if (⟨(s.paths i).flag,
            clearBit (setBit (s.paths i).queued_kernels n) kk⟩ :
            IntegratorPathState).flag ≠ 0 ∧
            (⟨(s.paths i).flag,
              clearBit (setBit (s.paths i).queued_kernels n) kk⟩ :
              IntegratorPathState).queued_kernels.testBit kk.val = true
            then (1:Nat) else 0) = 0 := by
          simp [testBit_clearBit]
        rw [hvb]
        by_cases hcn : kk = n
        · subst hcn
          rw [Function.update_same, Function.update_same,
            atomic_add_sub_one _ hfc2]
          omega
        · rw [Function.update_noteq hcn, Function.update_same,
            atomic_sub_one_eq _ hfc1 hfc2]
          omega
      · by_cases hkkn : kk = n
        · subst hkkn
          have hnc : kk.val ≠ c.val := fun hv => hkkc (Fin.ext hv)
          have hvb : (if (⟨(s.paths i).flag,
              clearBit (setBit (s.paths i).queued_kernels kk) c⟩ :
              IntegratorPathState).flag ≠ 0 ∧
              (⟨(s.paths i).flag,
                clearBit (setBit (s.paths i).queued_kernels kk) c⟩ :
                IntegratorPathState).queued_kernels.testBit kk.val = true
              then (1:Nat) else 0) = 1 := by
            simp [testBit_clearBit, testBit_setBit, h32, hnc, hlive]
          rw [hvb]
          rw [Function.update_same, Function.update_noteq (fun hv => hkkc hv),
            atomic_add_one_eq _ (hfnT (fun hv => hkkc hv.symm))]
          omega
        · have hnc : kk.val ≠ c.val := fun hv => hkkc (Fin.ext hv)
          have hnn : kk.val ≠ n.val := fun hv => hkkn (Fin.ext hv)
          have hvb : (if (⟨(s.paths i).flag,
              clearBit (setBit (s.paths i).queued_kernels n) c⟩ :
              IntegratorPathState).flag ≠ 0 ∧
              (⟨(s.paths i).flag,
                clearBit (setBit (s.paths i).queued_kernels n) c⟩ :
                IntegratorPathState).queued_kernels.testBit kk.val = true
              then (1:Nat) else 0)
              = (if (s.paths i).flag ≠ 0 ∧
                  (s.paths i).queued_kernels.testBit kk.val = true
                  then (1:Nat) else 0) := by
            simp [testBit_clearBit, testBit_setBit, h32, hnc, hnn]
          rw [hvb]
          rw [Function.update_noteq hkkn, Function.update_noteq hkkc]
          omega
  | terminate i c u hlive hq =>
    have hbic : (if (s.paths i).flag ≠ 0 ∧
        (s.paths i).queued_kernels.testBit c.val = true
        then (1:Nat) else 0) = 1 := by simp [hlive, hq]
    have hbsplitc := bitCount_split s i c
    have hbc1 : 1 ≤ bitCount s c := by omega
    have hfc1 : 1 ≤ s.queue.num_queued c := le_trans hbc1 (hbits c)
    have hfcT := num_queued_le_queueTotal s.queue c
    have hlN := liveCount_le s
    have hfc2 : s.queue.num_queued c < M32 := by omega
    refine ⟨?_, fun kk => ?_⟩
    · rw [atomic_sub_one_eq _ hfc1 hfc2, queueTotal_mk_update,
        liveCount_update]
      have hLsplit := liveCount_split s i
      have hLi : (if (s.paths i).flag ≠ 0 then (1:Nat) else 0) = 1 := by
        simp [hlive]
      have hv : (if (⟨0, clearBit (s.paths i).queued_kernels c⟩ :
          IntegratorPathState).flag ≠ 0 then (1:Nat) else 0) = 0 := by simp
      rw [hv]
      have hQsplit := queueTotal_split s.queue c
      omega
    · have hbsplit := bitCount_split s i kk
      have hb := hbits kk
      rw [atomic_sub_one_eq _ hfc1 hfc2, bitCount_update, mk_num_queued]
      have hvb : (if (⟨0, clearBit (s.paths i).queued_kernels c⟩ :
          IntegratorPathState).flag ≠ 0 ∧
          (⟨0, clearBit (s.paths i).queued_kernels c⟩ :
            IntegratorPathState).queued_kernels.testBit kk.val = true
          then (1:Nat) else 0) = 0 := by simp
      rw [hvb]
      by_cases hkk : kk = c
      · subst hkk
        rw [Function.update_same]
        have hbi := hbic
        omega
      · rw [Function.update_noteq hkk]
        omega

/-- The batch invariant holds of every state reachable from the empty batch. -/
theorem batchInvariant_reachable {N : Nat} (hN : N < M32) (s : BatchState N)
    (h : BatchReachable N s) : batchInvariant s := by
  induction h with
  | refl =>
    constructor
    · show (∑ k, (batchStart N).queue.num_queued k) = liveCount (batchStart N)
      simp [batchStart, liveCount]
    · intro k
      show bitCount (batchStart N) k ≤ (batchStart N).queue.num_queued k
      simp [batchStart, bitCount]
  | tail _hab hbc ih => exact batchInvariant_step hN _ _ ih hbc

/-- C4: in every reachable batch state, the counters of
`IntegratorPathQueue.num_queued` sum to the number of paths whose liveness
flag is set; consequently the counters are all zero exactly when no path of
the batch is live (the batch is fully drained). Starting point is the
all-zero, no-live-path batch; steps are `INIT`-plus-flag-set, `NEXT` and
`TERMINATE`, each naming a kernel held in the path's bitmask. -/
theorem counters_sum_eq_live_paths {N : Nat} (hN : N < M32) (s : BatchState N)
    (h : BatchReachable N s) :
    queueTotal s.queue = liveCount s ∧
    ((∀ k, s.queue.num_queued k = 0) ↔ ∀ i, (s.paths i).flag = 0) := by
  obtain ⟨hsum, _⟩ := batchInvariant_reachable hN s h
  refine ⟨hsum, ?_, ?_⟩
  · intro hz i
    have ht : queueTotal s.queue = 0 := Finset.sum_eq_zero (fun k _ => hz k)
    have hl : liveCount s = 0 := by rw [← hsum]; exact ht
    have hi : (if (s.paths i).flag ≠ 0 then (1:Nat) else 0) = 0 :=
      Finset.sum_eq_zero_iff.mp hl i (Finset.mem_univ i)
    by_cases hf : (s.paths i).flag = 0
    · exact hf
    · simp [hf] at hi
  · intro hz k
    have hl : liveCount s = 0 := Finset.sum_eq_zero (fun i _ => by simp [hz i])
    have ht : queueTotal s.queue = 0 := by rw [hsum, hl]
    exact Finset.sum_eq_zero_iff.mp ht k (Finset.mem_univ k)

/-- C4 witness: the counter-sum invariant at the freshly initialized two-path
batch. -/
theorem counters_sum_eq_live_paths_witness :
    ((2:Nat) < M32) ∧
    (queueTotal (batchStart 2).queue = liveCount (batchStart 2) ∧
      ((∀ k, (batchStart 2).queue.num_queued k = 0) ↔
        ∀ i, ((batchStart 2).paths i).flag = 0)) :=
  ⟨by decide, counters_sum_eq_live_paths (by decide) (batchStart 2)
    Relation.ReflTransGen.refl⟩

theorem deviceQueueRun_append (s : DeviceQueueState) (ops1 ops2 : List DeviceQueueOp) :
    deviceQueueRun s (ops1 ++ ops2) = deviceQueueRun (deviceQueueRun s ops1) ops2 :=
  List.foldl_append deviceQueueApply s ops1 ops2

/-- Once a queue's failure flag is set, no later operation clears it. -/
theorem deviceQueueRun_failed_sticky (s : DeviceQueueState)
    (ops : List DeviceQueueOp) (h : s.failed = true) :
    (deviceQueueRun s ops).failed = true := by
  induction ops generalizing s with
  | nil => exact h
  | cons op ops ih =>
    show (deviceQueueRun (deviceQueueApply s op) ops).failed = true
    apply ih
    cases op with
    | enqueue ok => simp [deviceQueueApply, h]
    | synchronize => exact h

/-- C8: `DeviceQueue` failure is sticky and propagated — once an enqueue on a
queue has returned false, every later enqueue on that queue returns false and
so does `synchronize`; `synchronize` returns true exactly when no enqueued
kernel has reported failure, and only a `synchronize` drains the enqueued
work (an `enqueue` always leaves work pending). -/
theorem deviceQueue_failure_sticky (pre mid : List DeviceQueueOp) (ok : Bool)
    (hfail : deviceQueueResult (deviceQueueRun freshDeviceQueue pre)
      (.enqueue ok) = false) :
    (∀ okLater, deviceQueueResult
        (deviceQueueRun freshDeviceQueue (pre ++ DeviceQueueOp.enqueue ok :: mid))
        (.enqueue okLater) = false) ∧
    deviceQueueResult
        (deviceQueueRun freshDeviceQueue (pre ++ DeviceQueueOp.enqueue ok :: mid))
        .synchronize = false ∧
    (∀ s : DeviceQueueState,
      deviceQueueResult s .synchronize = true ↔ s.failed = false) ∧
    (∀ (s : DeviceQueueState) (ok2 : Bool),
      (deviceQueueApply s .synchronize).num_unsynced = 0 ∧
      (deviceQueueApply s (.enqueue ok2)).num_unsynced = s.num_unsynced + 1) := by
  have hkey : (deviceQueueApply (deviceQueueRun freshDeviceQueue pre)
      (.enqueue ok)).failed = true := by
    simp [deviceQueueResult] at hfail
    simp [deviceQueueApply]
    by_cases hb : (deviceQueueRun freshDeviceQueue pre).failed = true
    · exact Or.inl hb
    · exact Or.inr (hfail (Bool.not_eq_true _ ▸ hb))
  have hrunfailed : (deviceQueueRun freshDeviceQueue
      (pre ++ DeviceQueueOp.enqueue ok :: mid)).failed = true := by
    rw [deviceQueueRun_append]
    show (deviceQueueRun (deviceQueueApply (deviceQueueRun freshDeviceQueue pre)
      (.enqueue ok)) mid).failed = true
    exact deviceQueueRun_failed_sticky _ mid hkey
  refine ⟨fun okLater => ?_, ?_, fun s => ?_, fun s ok2 => ⟨rfl, rfl⟩⟩
  · simp [deviceQueueResult, hrunfailed]
  · simp [deviceQueueResult, hrunfailed]
  · simp [deviceQueueResult]

/-- C8 witness: a failing first enqueue on a fresh queue makes the following
enqueues and `synchronize` report failure. -/
theorem deviceQueue_failure_sticky_witness :
    (deviceQueueResult (deviceQueueRun freshDeviceQueue [])
      (.enqueue false) = false) ∧
    ((∀ okLater, deviceQueueResult
        (deviceQueueRun freshDeviceQueue
          ([] ++ DeviceQueueOp.enqueue false :: [DeviceQueueOp.enqueue true]))
        (.enqueue okLater) = false) ∧
    deviceQueueResult
        (deviceQueueRun freshDeviceQueue
          ([] ++ DeviceQueueOp.enqueue false :: [DeviceQueueOp.enqueue true]))
        .synchronize = false ∧
    (∀ s : DeviceQueueState,
      deviceQueueResult s .synchronize = true ↔ s.failed = false) ∧
    (∀ (s : DeviceQueueState) (ok2 : Bool),
      (deviceQueueApply s .synchronize).num_unsynced = 0 ∧
      (deviceQueueApply s (.enqueue ok2)).num_unsynced = s.num_unsynced + 1)) :=
  ⟨by decide,
    deviceQueue_failure_sticky [] [DeviceQueueOp.enqueue true] false (by decide)⟩

/-- A live path with an empty queued-kernel bitmask, reached by
`INIT(intersect_closest)` followed by the degenerate
`NEXT(intersect_closest, intersect_closest)`. -/
def c1BadState : TrackedPath :=
  ⟨⟨1, 0⟩, some INTEGRATOR_KERNEL_intersect_closest⟩

/-- C1, counterexample: under the step relation of the claim (steps name the
kernel the path is queued on, but a `NEXT` target is unrestricted), a live
path whose bitmask is zero is reachable — `INIT(k)` then `NEXT(k, k)` — so the
claimed invariant "never zero while alive" fails. -/
theorem live_path_with_zero_mask_reachable :
    PathReachable false c1BadState ∧
    c1BadState.st.flag ≠ 0 ∧ c1BadState.st.queued_kernels = 0 := by
  have h1 : PathStep false freshTrackedPath
      ⟨⟨1, setBit 0 INTEGRATOR_KERNEL_intersect_closest⟩,
        some INTEGRATOR_KERNEL_intersect_closest⟩ :=
    PathStep.init INTEGRATOR_KERNEL_intersect_closest freshTrackedPath rfl rfl
  have h2 : PathStep false
      ⟨⟨1, setBit 0 INTEGRATOR_KERNEL_intersect_closest⟩,
        some INTEGRATOR_KERNEL_intersect_closest⟩ c1BadState := by
    have h := @PathStep.next false INTEGRATOR_KERNEL_intersect_closest
      INTEGRATOR_KERNEL_intersect_closest
      ⟨⟨1, setBit 0 INTEGRATOR_KERNEL_intersect_closest⟩,
        some INTEGRATOR_KERNEL_intersect_closest⟩
      (by decide) rfl (fun hf => nomatch hf)
    have he : (⟨⟨1, clearBit (setBit (setBit 0 INTEGRATOR_KERNEL_intersect_closest)
          INTEGRATOR_KERNEL_intersect_closest) INTEGRATOR_KERNEL_intersect_closest⟩,
        some INTEGRATOR_KERNEL_intersect_closest⟩ : TrackedPath) = c1BadState := by
      decide
    exact he ▸ h
  exact ⟨Relation.ReflTransGen.tail (Relation.ReflTransGen.single h1) h2,
    by decide, rfl⟩

/-- C1, amended: the queued-kernel bitmask invariant holds of the step
relation whose steps name the kernel the path is actually queued on, provided
additionally that every `NEXT` step moves to a kernel different from the
current one: every live path's bitmask is exactly the single kernel it is
queued on (hence non-zero), and the bitmask is exactly zero from the instant
`INTEGRATOR_PATH_TERMINATE` completes. -/
theorem path_mask_invariant_holds (s : TrackedPath)
    (h : PathReachable true s) : pathMaskInvariant s := by
  induction h with
  | refl => exact ⟨fun hlv => absurd rfl hlv, fun _ => rfl⟩
  | tail _hab hbc ih =>
    cases hbc with
    | init k t hflag hmask =>
      refine ⟨fun _ => ⟨⟨k, rfl, ?_⟩, ?_⟩, fun hz => absurd hz one_ne_zero⟩
      · rw [hmask, setBit_zero]
      · rw [hmask, setBit_zero]
        exact kbit_ne_zero k
    | next c n t hlive hq hstrict =>
      obtain ⟨hl, _⟩ := ih
      obtain ⟨⟨k, hk1, hk2⟩, _⟩ := hl hlive
      rw [hq] at hk1
      have hkc : k = c := (Option.some.inj hk1).symm
      refine ⟨fun _ => ⟨⟨n, rfl, ?_⟩, ?_⟩, fun hz => absurd hz hlive⟩
      · rw [hk2, hkc]
        exact clearBit_setBit_kbit c n (hstrict rfl)
      · rw [hk2, hkc, clearBit_setBit_kbit c n (hstrict rfl)]
        exact kbit_ne_zero n
    | terminate c t hlive hq =>
      obtain ⟨hl, _⟩ := ih
      obtain ⟨⟨k, hk1, hk2⟩, _⟩ := hl hlive
      rw [hq] at hk1
      have hkc : k = c := (Option.some.inj hk1).symm
      refine ⟨fun hlv => absurd rfl hlv, fun _ => ?_⟩
      rw [hk2, hkc]
      exact clearBit_kbit_self c

/-- C1 witness: the amended invariant at the state reached by one
`INIT(intersect_closest)` step. -/
theorem path_mask_invariant_holds_witness :
    pathMaskInvariant ⟨⟨1, setBit 0 INTEGRATOR_KERNEL_intersect_closest⟩,
      some INTEGRATOR_KERNEL_intersect_closest⟩ :=
  path_mask_invariant_holds _
    (Relation.ReflTransGen.single
      (PathStep.init INTEGRATOR_KERNEL_intersect_closest freshTrackedPath rfl rfl))
